import Mathlib

/-
Shallow embedding of the chirik product-catalog repository core
(src/internal/repository/repository.go).  The source contains two program
variants of the same component: a large-catalog variant (seed target
100000, scan-based verification with a by-ID sample retrieval) and a
small-catalog variant (seed minimum 5, listing-based verification).  Both
are embedded; definitions carry a `1` (large) or `2` (small) suffix where
the variants differ.

Modelling conventions:
- the Redis keyspace is an ordered snapshot of string-keyed bindings;
  `KEYS pattern` and a completed cursor `SCAN` enumerate the matching keys
  in snapshot order;
- stored bytes are `Val`: either the `json.Marshal` image of a product
  (decoding returns the record) or undecodable bytes;
- the float64 `Price` is modelled as an exact integer count of hundredths
  (no operation of the core does price arithmetic);
- `time.Time` is nanoseconds since the epoch, `0` being the zero value
  tested by `IsZero`;
- Go `int32` arithmetic wraps; `wrap32` performs the two's-complement
  reduction where the source computes in `int32`.
-/

namespace Chirik

/-- A product record (struct `Product`). -/
structure Product where
  ID : String
  Name : String
  Description : String
  Price : Int
  Category : String
  Stock : Int
  CreatedAt : Nat
deriving DecidableEq

/-- Bytes stored under a key: the `json.Marshal` image of a product, or
bytes that do not decode into a `Product`. -/
inductive Val where
  | json (p : Product)
  | corrupt (s : String)
deriving DecidableEq

/-- `json.Unmarshal` into `Product`. -/
def decodeVal : Val → Option Product
  | .json p => some p
  | .corrupt _ => none

/-- The Redis keyspace: an ordered snapshot of bindings.  Well-formed
states have pairwise distinct keys (`uniqKeys`). -/
abbrev Store := List (String × Val)

/-- Redis `SET key v`: overwrite the binding in place, or append. -/
def setKV {α : Type} : List (String × α) → String → α → List (String × α)
  | [], k, v => [(k, v)]
  | (k', v') :: rest, k, v =>
    if k' = k then (k, v) :: rest else (k', v') :: setKV rest k v

/-- Redis `GET key`. -/
def getKV {α : Type} : List (String × α) → String → Option α
  | [], _ => none
  | (k', v') :: rest, k => if k' = k then some v' else getKV rest k

/-- Keys are pairwise distinct (a Redis keyspace invariant). -/
def uniqKeys (st : Store) : Prop := (st.map Prod.fst).Nodup

instance (st : Store) : Decidable (uniqKeys st) :=
  List.nodupDecidable _

/-- `strings.HasPrefix`, on the underlying character data. -/
def goHasPfx (p s : String) : Bool := p.data.isPrefixOf s.data

/-- `strings.TrimPrefix`. -/
def goTrimPfx (p s : String) : String :=
  if goHasPfx p s then ⟨s.data.drop p.data.length⟩ else s

/-- `strings.ToLower` (character-wise). -/
def goToLower (s : String) : String := ⟨s.data.map Char.toLower⟩

/-- Helper for `strings.Contains`: does `sub` occur contiguously in the
character list? -/
def goContainsData (sub : List Char) : List Char → Bool
  | [] => sub.isEmpty
  | c :: rest => sub.isPrefixOf (c :: rest) || goContainsData sub rest

/-- `strings.Contains s sub`. -/
def goContains (s sub : String) : Bool := goContainsData sub.data s.data

/-- `productsKeyPrefix` (same in both variants). -/
def productsKeyPfx : String := "product:"

/-- `keyFor`: `"product:" + id`. -/
def keyFor (id : String) : String := productsKeyPfx ++ id

/-- The keys matching `product:*`, in keyspace order — the net effect of
`KEYS product:*` and of a completed cursor `SCAN` with that pattern (the
cursor batching is invisible at this level: the loops in the source
accumulate every matching key until the store reports cursor 0). -/
def keysWithPfx (st : Store) : List String :=
  (st.map Prod.fst).filter (fun k => goHasPfx productsKeyPfx k)

/-- The product IDs present in the store: scanned keys with the key prefix
trimmed (`collectExistingProductIDs` builds exactly this membership set). -/
def idsOf (st : Store) : List String :=
  (keysWithPfx st).map (goTrimPfx productsKeyPfx)

/-- Two's-complement wrap of Go `int32` arithmetic. -/
def wrap32 (x : Int) : Int := (x + 2 ^ 31) % 2 ^ 32 - 2 ^ 31

/-- Go slicing `l[a:b]`: defined when `0 ≤ a ≤ b ≤ len l`, otherwise the
program panics (`none`). -/
def goSlice (l : List Product) (a b : Int) : Option (List Product) :=
  if 0 ≤ a ∧ a ≤ b ∧ b ≤ (l.length : Int) then
    some ((l.drop a.toNat).take (b - a).toNat)
  else none

/-- The error taxonomy of the repository boundary. -/
inductive RepoErr where
  | notFound (id : String)
  | storeRead
  | storeWrite
  | decodeFail
deriving DecidableEq

/-- The fields `CreateProduct` sends to the search index for one document. -/
structure IndexDoc where
  name : String
  description : String
  category : String
  price : Int
  stock : Int
deriving DecidableEq

/-- Repository-visible state: the store plus the best-effort search-index
projection (documents keyed by the record key). -/
structure SysState where
  store : Store
  index : List (String × IndexDoc)
deriving DecidableEq

/-- The ID / CreatedAt defaulting at the top of `CreateProduct`; `now` is
the `time.Now` reading (`fmt.Sprintf("%d", now.UnixNano())` for the ID). -/
def assignDefaults (now : Nat) (p : Product) : Product :=
  let p1 := if p.ID = "" then { p with ID := toString now } else p
  if p1.CreatedAt = 0 then { p1 with CreatedAt := now } else p1

def indexDocFor (p : Product) : IndexDoc :=
  ⟨p.Name, p.Description, p.Category, p.Price, p.Stock⟩

/-- Success path of `CreateProduct`: assign defaults, marshal, `SET`, then
best-effort indexing.  `searchEnabled` is the capability flag resolved at
construction; `idxOk` is whether this index write succeeds — a failure is
only logged and leaves the index unchanged. -/
def createProductOk (searchEnabled idxOk : Bool) (now : Nat) (s : SysState)
    (p : Product) : Product × SysState :=
  let p := assignDefaults now p
  let key := keyFor p.ID
  let store := setKV s.store key (Val.json p)
  let index :=
    if searchEnabled && idxOk then setKV s.index key (indexDocFor p)
    else s.index
  (p, { store := store, index := index })

/-- `CreateProduct`; `storeOk` is whether the Redis `SET` succeeds (a
failure returns the store-write error and changes nothing). -/
def createProduct (storeOk searchEnabled idxOk : Bool) (now : Nat)
    (s : SysState) (p : Product) : Except RepoErr (Product × SysState) :=
  if storeOk then .ok (createProductOk searchEnabled idxOk now s p)
  else .error .storeWrite

/-- `GetProduct`: direct lookup under the derived key.  `readOk` is whether
the `GET` reaches the store; a healthy store reports a missing key as
`redis.Nil`, which the source maps to the not-found outcome before the
general error branch. -/
def getProduct (readOk : Bool) (st : Store) (id : String) :
    Except RepoErr Product :=
  if readOk then
    match getKV st (keyFor id) with
    | none => .error (.notFound id)
    | some v =>
      match decodeVal v with
      | some p => .ok p
      | none => .error .decodeFail
  else .error .storeRead

/-- The body of the scan-path loop of `ListProducts` for one key: fetch,
decode, apply the `category` exact-match filter and, for a non-empty
`searchQuery`, the case-insensitive substring match against Name or
Description; `none` mirrors `continue` (including the skip of a record
that fails to decode). -/
def scanInclude (st : Store) (category searchQuery : String) (k : String) :
    Option Product :=
  match getKV st k with
  | none => none
  | some v =>
    match decodeVal v with
    | none => none
    | some product =>
      if category ≠ "" ∧ product.Category ≠ category then none
      else if searchQuery ≠ "" ∧
          ¬(goContains (goToLower product.Name) (goToLower searchQuery) = true ∨
            goContains (goToLower product.Description) (goToLower searchQuery)
              = true)
        then none
      else some product

/-- The `filtered` sequence the scan path builds, in key order. -/
def scanFilter (st : Store) (category searchQuery : String) : List Product :=
  (keysWithPfx st).filterMap (scanInclude st category searchQuery)

/-- The pagination tail of the scan path, exactly as in the source:
`total := int32(len(filtered))`; an empty filtered set returns
`([], 0)` before any defaulting; then `page`/`pageSize` are defaulted,
`start := int((page-1)*pageSize)` in `int32` arithmetic, an out-of-range
start returns `([], total)`, and otherwise `filtered[start:end]` is
returned with `end = min(start+pageSize, len)`.  `none` = the Go slice
expression panics. -/
def paginate (page pageSize : Int) (filtered : List Product) :
    Option (List Product × Int) :=
  let total := wrap32 filtered.length
  if total = 0 then some ([], 0)
  else
    let page := if page < 1 then 1 else page
    let pageSize := if pageSize ≤ 0 then 10 else pageSize
    let start := wrap32 (wrap32 (page - 1) * pageSize)
    if start ≥ (filtered.length : Int) then some ([], total)
    else
      let stop :=
        if start + pageSize > (filtered.length : Int) then
          (filtered.length : Int)
        else start + pageSize
      (goSlice filtered start stop).map (fun pageList => (pageList, total))

/-- The scan path of `ListProducts` (taken whenever `searchQuery` is empty
or the search index is disabled). -/
def listProductsScan (page pageSize : Int) (category searchQuery : String)
    (st : Store) : Option (List Product × Int) :=
  paginate page pageSize (scanFilter st category searchQuery)

/-- The offset/limit the indexed path hands the search engine:
`query.Limit(int((page-1)*pageSize), int(pageSize))`, computed on the raw
arguments in `int32` arithmetic — no defaulting happens on this path. -/
def indexedPagination (page pageSize : Int) : Int × Int :=
  (wrap32 (wrap32 (page - 1) * pageSize), pageSize)

/-- The fixed base sample records (`seedProducts`, identical in both
variants; prices in hundredths). -/
def seedProducts : List Product :=
  [ { ID := "seed-1", Name := "Laptop Pro 15",
      Description := "High-performance laptop with 16GB RAM and 512GB SSD",
      Price := 129999, Category := "Electronics", Stock := 50, CreatedAt := 0 },
    { ID := "seed-2", Name := "Wireless Mouse",
      Description := "Ergonomic wireless mouse with long battery life",
      Price := 2999, Category := "Electronics", Stock := 200, CreatedAt := 0 },
    { ID := "seed-3", Name := "Office Chair",
      Description := "Comfortable ergonomic office chair with lumbar support",
      Price := 19999, Category := "Furniture", Stock := 30, CreatedAt := 0 },
    { ID := "seed-4", Name := "Coffee Maker",
      Description := "Automatic drip coffee maker with programmable timer",
      Price := 7999, Category := "Appliances", Stock := 75, CreatedAt := 0 },
    { ID := "seed-5", Name := "Running Shoes",
      Description := "Lightweight running shoes with breathable mesh",
      Price := 8999, Category := "Sports", Stock := 120, CreatedAt := 0 } ]

/-- `targetSeedProducts` of the large variant (the source hard-codes
100000; the embedding takes the target as a parameter — the spec calls it
"the configured minimum" — and this constant instantiates it). -/
def targetSeedProducts : Nat := 100000

/-- `minSeedProducts` of the small variant. -/
def minSeedProducts : Nat := 5

/-- The loop over the fixed base `seedProducts` (identical in both
variants): skip IDs already in the membership set, stamp a zero
`CreatedAt` with `now`, `CreateProduct`, and add the ID to the set.  The
third component instruments the run with the list of IDs written, in
order (the source performs one store `SET` per element of that list and
no other write). -/
def seedBaseLoop (se idxOk : Bool) (now : Nat) :
    List Product → SysState × List String × List String →
    SysState × List String × List String
  | [], acc => acc
  | p :: rest, (s, existing, written) =>
    if p.ID ∈ existing then seedBaseLoop se idxOk now rest (s, existing, written)
    else
      let seed := if p.CreatedAt = 0 then { p with CreatedAt := now } else p
      let s' := (createProductOk se idxOk now s seed).2
      seedBaseLoop se idxOk now rest (s', existing ++ [seed.ID], written ++ [seed.ID])

/-- The synthetic-generation loop of the large variant.  `gen` is the
oracle for the seeded gofakeit stream: `gen i` is the product the `i`-th
iteration would build (ID `"seed-" + uuid-without-dashes`, randomized
fields, the iteration's `time.Now` as `CreatedAt`).  An ID already in the
membership set is skipped without writing.  `fuel` bounds the iterations;
`none` models the loop not having finished within `fuel` steps. -/
def seedGenLoop (target : Nat) (se idxOk : Bool) (now : Nat)
    (gen : Nat → Product) :
    Nat → Nat → SysState × List String × List String →
    Option (SysState × List String × List String)
  | 0, _, _ => none
  | fuel + 1, i, (s, existing, written) =>
    if existing.length < target then
      let p := gen i
      if p.ID ∈ existing then
        seedGenLoop target se idxOk now gen fuel (i + 1) (s, existing, written)
      else
        let s' := (createProductOk se idxOk now s p).2
        seedGenLoop target se idxOk now gen fuel (i + 1)
          (s', existing ++ [p.ID], written ++ [p.ID])
    else some (s, existing, written)

/-- `seedData` of the large variant: collect the membership set by prefix
scan; stop with no writes if it already meets the target; otherwise write
the missing base records, re-check the target, and synthesize products
from the generator stream until the target is reached.  Returns the final
state and the instrumented list of written IDs (`none` = the generation
loop exhausted its fuel). -/
def seedData1 (target : Nat) (se idxOk : Bool) (now : Nat)
    (gen : Nat → Product) (fuel : Nat) (s : SysState) :
    Option (SysState × List String) :=
  let existing := idsOf s.store
  if existing.length ≥ target then some (s, [])
  else
    let r1 := seedBaseLoop se idxOk now seedProducts (s, existing, [])
    if r1.2.1.length ≥ target then some (r1.1, r1.2.2)
    else
      match seedGenLoop target se idxOk now gen fuel 0 r1 with
      | none => none
      | some (s2, _, w2) => some (s2, w2)

/-- Body of the `seed-auto-N` loop of the small variant, presented as
structural recursion on `gap = minSeedProducts - count`, the quantity the
Go loop strictly decreases (`count` advances on every iteration, also
when the candidate ID is already present and nothing is written; the
loop runs while `count < minSeedProducts`, i.e. while `gap > 0`). -/
def seedAutoGo (se idxOk : Bool) (now : Nat) :
    Nat → Nat → SysState → List String → List String →
    SysState × List String × List String
  | 0, _, s, existing, written => (s, existing, written)
  | gap + 1, count, s, existing, written =>
    let id := "seed-auto-" ++ toString (count + 1)
    if id ∈ existing then
      seedAutoGo se idxOk now gap (count + 1) s existing written
    else
      let product : Product :=
        { ID := id, Name := "Sample Product " ++ toString (count + 1),
          Description := "Automatically generated sample product",
          Price := 4999 + 100 * (count : Int), Category := "Sample",
          Stock := 20 + (count : Int), CreatedAt := now }
      let s' := (createProductOk se idxOk now s product).2
      seedAutoGo se idxOk now gap (count + 1) s' (existing ++ [id])
        (written ++ [id])

/-- The `seed-auto-N` loop of the small variant, entered at `count`. -/
def seedAutoLoop (se idxOk : Bool) (now : Nat) (count : Nat) (s : SysState)
    (existing written : List String) : SysState × List String × List String :=
  seedAutoGo se idxOk now (minSeedProducts - count) count s existing written

/-- `seedData` of the small variant: collect the membership set from
`KEYS product:*`, write the missing base records (with no prior
minimum-met check), then run the auto loop from `count = len(existing)`.
Returns the final state and the instrumented list of written IDs. -/
def seedData2 (se idxOk : Bool) (now : Nat) (s : SysState) :
    SysState × List String :=
  let existing := idsOf s.store
  let r1 := seedBaseLoop se idxOk now seedProducts (s, existing, [])
  let r2 := seedAutoLoop se idxOk now r1.2.1.length r1.1 r1.2.1 r1.2.2
  (r2.1, r2.2.2)

/-- Repository-level operations a verification routine performs, as
observable events: a key scan, a `ListProducts` call, or a by-ID
`GetProduct` call. -/
inductive Ev where
  | scanOp
  | listOp
  | getByIdOp (id : String)
deriving DecidableEq

/-- `countProducts`: the number of `product:*` keys.  The source counts
cursor batches and may return early once the running total reaches the
short-circuit threshold; the comparison `total < target` performed by its
only caller is unaffected, so the embedding returns the full count. -/
def countProducts (st : Store) : Nat := (keysWithPfx st).length

/-- `sampleProductID`: the first scanned `product:*` key with the prefix
trimmed, or `""` when the catalog is empty. -/
def sampleProductID (st : Store) : String :=
  match keysWithPfx st with
  | [] => ""
  | k :: _ => goTrimPfx productsKeyPfx k

inductive VerifyErr where
  | insufficient
  | emptyCatalog
  | sampleFailed
  | listFailed
deriving DecidableEq

/-- `verifySeedData` of the large variant: count the catalog (short
circuit at the target), fail below the target; take a sample ID, fail if
none; retrieve it through `GetProduct`, fail on error.  The second
component records the repository operations performed. -/
def verifySeedData1 (target : Nat) (st : Store) :
    Except VerifyErr Unit × List Ev :=
  let total := countProducts st
  if total < target then (.error .insufficient, [.scanOp])
  else
    let sampleID := sampleProductID st
    if sampleID = "" then (.error .emptyCatalog, [.scanOp, .scanOp])
    else
      match getProduct true st sampleID with
      | .error _ => (.error .sampleFailed, [.scanOp, .scanOp, .getByIdOp sampleID])
      | .ok _ => (.ok (), [.scanOp, .scanOp, .getByIdOp sampleID])

/-- `verifySeedData` of the small variant: one
`ListProducts(1, minSeedProducts, "", "")` call (scan path, since the
query is empty); fail if the reported total is below the minimum or the
returned page is empty.  No by-ID retrieval is performed, so the event
trace is the single listing call on every control path. -/
def verifySeedData2 (st : Store) : Except VerifyErr Unit × List Ev :=
  (match listProductsScan 1 (minSeedProducts : Int) "" "" st with
   | none => .error .listFailed
   | some (products, total) =>
     if total < (minSeedProducts : Int) then .error .insufficient
     else if products.length = 0 then .error .emptyCatalog
     else .ok (),
   [.listOp])

/-- `ceil(N / P)`, the number of pages of size `P` covering `N` items. -/
def ceilPages (N P : Nat) : Nat := (N + P - 1) / P


/-! ### Concrete states used by witnesses and counterexamples -/

def sampleProduct (i : String) : Product :=
  { ID := i, Name := "Widget " ++ i, Description := "plain item " ++ i,
    Price := 100, Category := "Electronics", Stock := 1, CreatedAt := 1 }

/-- Five decodable records under non-seed IDs. -/
def sampleStore5 : Store :=
  [ (keyFor "a", Val.json (sampleProduct "a")),
    (keyFor "b", Val.json (sampleProduct "b")),
    (keyFor "c", Val.json (sampleProduct "c")),
    (keyFor "d", Val.json (sampleProduct "d")),
    (keyFor "e", Val.json (sampleProduct "e")) ]

/-- A single decodable record. -/
def sampleStore1 : Store := [ (keyFor "a", Val.json (sampleProduct "a")) ]

def overwriteP : Product :=
  { ID := "x", Name := "Changed", Description := "overwritten bytes",
    Price := 200, Category := "Electronics", Stock := 2, CreatedAt := 2 }


/-! ### Key-string lemmas -/

theorem goHasPfx_keyFor (id : String) :
    goHasPfx productsKeyPfx (keyFor id) = true := by
  have h : (keyFor id).data = productsKeyPfx.data ++ id.data :=
    String.data_append _ _
  simp [goHasPfx, h, List.isPrefixOf_iff_prefix]

theorem goTrimPfx_keyFor (id : String) :
    goTrimPfx productsKeyPfx (keyFor id) = id := by
  have h : (keyFor id).data = productsKeyPfx.data ++ id.data :=
    String.data_append _ _
  simp [goTrimPfx, goHasPfx_keyFor, h, List.drop_left]

theorem keyFor_goTrimPfx {k : String} (h : goHasPfx productsKeyPfx k = true) :
    keyFor (goTrimPfx productsKeyPfx k) = k := by
  simp only [goHasPfx, List.isPrefixOf_iff_prefix] at h
  obtain ⟨t, ht⟩ := h
  have hk : k = keyFor ⟨t⟩ := by
    apply String.ext
    rw [show (keyFor ⟨t⟩).data = productsKeyPfx.data ++ t from
      String.data_append _ _, ht]
  rw [hk, goTrimPfx_keyFor]

theorem keyFor_inj {a b : String} (h : keyFor a = keyFor b) : a = b := by
  have := congrArg (goTrimPfx productsKeyPfx) h
  rwa [goTrimPfx_keyFor, goTrimPfx_keyFor] at this

/-! ### Association-list (keyspace) lemmas -/

theorem getKV_eq_none_iff {α : Type} (l : List (String × α)) (k : String) :
    getKV l k = none ↔ k ∉ l.map Prod.fst := by
  induction l with
  | nil => simp [getKV]
  | cons hd tl ih =>
    by_cases h : hd.1 = k
    · simp [getKV, h]
    · have h' : ¬k = hd.1 := fun hh => h hh.symm
      simp only [getKV, if_neg h, List.map_cons, List.mem_cons, not_or, ih]
      tauto

theorem getKV_setKV_self {α : Type} (l : List (String × α)) (k : String)
    (v : α) : getKV (setKV l k v) k = some v := by
  induction l with
  | nil => simp [setKV, getKV]
  | cons hd tl ih =>
    by_cases h : hd.1 = k <;> simp [setKV, getKV, h, ih]

theorem getKV_setKV_ne {α : Type} (l : List (String × α)) {k k' : String}
    (v : α) (h : k' ≠ k) : getKV (setKV l k v) k' = getKV l k' := by
  induction l with
  | nil => simp [setKV, getKV, Ne.symm h]
  | cons hd tl ih =>
    by_cases hh : hd.1 = k
    · have hne : hd.1 ≠ k' := by rw [hh]; exact Ne.symm h
      simp [setKV, getKV, hh, Ne.symm h, hne]
    · by_cases hk' : hd.1 = k' <;> simp [setKV, getKV, hh, hk', ih, h]

theorem setKV_absent {α : Type} {l : List (String × α)} {k : String}
    (v : α) (h : k ∉ l.map Prod.fst) : setKV l k v = l ++ [(k, v)] := by
  induction l with
  | nil => simp [setKV]
  | cons hd tl ih =>
    simp only [List.map_cons, List.mem_cons, not_or] at h
    simp [setKV, Ne.symm h.1, ih h.2]

theorem getKV_append_left {α : Type} {l : List (String × α)} {k : String}
    {v : α} (t : List (String × α)) (h : getKV l k = some v) :
    getKV (l ++ t) k = some v := by
  induction l with
  | nil => simp [getKV] at h
  | cons hd tl ih =>
    by_cases hh : hd.1 = k <;> simp_all [getKV, hh]

/-! ### Lemmas about `keysWithPfx` / `idsOf` -/

theorem keysWithPfx_append_key (st : Store) (id : String) (v : Val) :
    keysWithPfx (st ++ [(keyFor id, v)]) = keysWithPfx st ++ [keyFor id] := by
  simp [keysWithPfx, List.filter_append, goHasPfx_keyFor]

theorem idsOf_append_key (st : Store) (id : String) (v : Val) :
    idsOf (st ++ [(keyFor id, v)]) = idsOf st ++ [id] := by
  simp [idsOf, keysWithPfx_append_key, goTrimPfx_keyFor]

theorem mem_keysWithPfx_hasPfx {st : Store} {k : String}
    (h : k ∈ keysWithPfx st) : goHasPfx productsKeyPfx k = true :=
  (List.mem_filter.mp h).2

theorem mem_idsOf_iff {st : Store} {id : String} :
    id ∈ idsOf st ↔ keyFor id ∈ keysWithPfx st := by
  constructor
  · intro h
    obtain ⟨k, hk, htrim⟩ := List.mem_map.mp h
    have := keyFor_goTrimPfx (mem_keysWithPfx_hasPfx hk)
    rw [← htrim, this]
    exact hk
  · intro h
    have : goTrimPfx productsKeyPfx (keyFor id) ∈ idsOf st :=
      List.mem_map_of_mem _ h
    rwa [goTrimPfx_keyFor] at this

theorem keyFor_not_mem_of_not_mem_idsOf {st : Store} {id : String}
    (h : id ∉ idsOf st) : keyFor id ∉ st.map Prod.fst := by
  intro hmem
  exact h (mem_idsOf_iff.mpr (List.mem_filter.mpr ⟨hmem, goHasPfx_keyFor id⟩))

theorem getKV_none_of_not_mem_idsOf {st : Store} {id : String}
    (h : id ∉ idsOf st) : getKV st (keyFor id) = none :=
  (getKV_eq_none_iff st (keyFor id)).mpr (keyFor_not_mem_of_not_mem_idsOf h)

theorem idsOf_nodup {st : Store} (h : uniqKeys st) : (idsOf st).Nodup := by
  have hkeys : (keysWithPfx st).Nodup := h.filter _
  refine hkeys.map_on ?_
  intro x hx y hy hxy
  have hxk := keyFor_goTrimPfx (mem_keysWithPfx_hasPfx hx)
  have hyk := keyFor_goTrimPfx (mem_keysWithPfx_hasPfx hy)
  rw [← hxk, ← hyk, hxy]

theorem uniqKeys_append_key {st : Store} {id : String} (v : Val)
    (h : uniqKeys st) (habs : keyFor id ∉ st.map Prod.fst) :
    uniqKeys (st ++ [(keyFor id, v)]) := by
  have hmap : (st ++ [(keyFor id, v)]).map Prod.fst
      = st.map Prod.fst ++ [keyFor id] := by simp
  unfold uniqKeys
  rw [hmap, List.nodup_append]
  refine ⟨h, List.nodup_singleton _, fun a ha hb => ?_⟩
  simp only [List.mem_singleton] at hb
  exact habs (hb ▸ ha)

/-! ### `CreateProduct` store-effect lemmas -/

theorem assignDefaults_ID {now : Nat} {p : Product} (h : p.ID ≠ "") :
    (assignDefaults now p).ID = p.ID := by
  unfold assignDefaults
  rw [if_neg h]
  by_cases hc : p.CreatedAt = 0 <;> simp [hc]

theorem createProductOk_store (se idx : Bool) (now : Nat) (s : SysState)
    (p : Product) :
    (createProductOk se idx now s p).2.store
      = setKV s.store (keyFor (assignDefaults now p).ID)
          (Val.json (assignDefaults now p)) := rfl

theorem createProductOk_fst (se idx : Bool) (now : Nat) (s : SysState)
    (p : Product) :
    (createProductOk se idx now s p).1 = assignDefaults now p := rfl

/-- Effect of writing a product whose (nonempty) ID is absent: the store
gains exactly one appended binding, the membership set gains that ID, and
key uniqueness is preserved. -/
theorem createProductOk_absent {se idx : Bool} {now : Nat} {s : SysState}
    {q : Product} (hid : q.ID ≠ "") (habs : q.ID ∉ idsOf s.store)
    (huniq : uniqKeys s.store) :
    (createProductOk se idx now s q).2.store
        = s.store ++ [(keyFor q.ID, Val.json (assignDefaults now q))]
    ∧ idsOf ((createProductOk se idx now s q).2.store) = idsOf s.store ++ [q.ID]
    ∧ uniqKeys ((createProductOk se idx now s q).2.store) := by
  have hstore : (createProductOk se idx now s q).2.store
      = s.store ++ [(keyFor q.ID, Val.json (assignDefaults now q))] := by
    rw [createProductOk_store, assignDefaults_ID hid]
    exact setKV_absent _ (keyFor_not_mem_of_not_mem_idsOf habs)
  refine ⟨hstore, ?_, ?_⟩
  · rw [hstore, idsOf_append_key]
  · rw [hstore]
    exact uniqKeys_append_key _ huniq (keyFor_not_mem_of_not_mem_idsOf habs)

/-! ### Seeding-loop invariants -/

theorem seedBaseLoop_spec (se idx : Bool) (now : Nat) :
    ∀ (todo : List Product) (s : SysState) (ex w : List String)
      (s' : SysState) (ex' w' : List String),
      seedBaseLoop se idx now todo (s, ex, w) = (s', ex', w') →
      (∀ p ∈ todo, p.ID ≠ "") → ex = idsOf s.store → uniqKeys s.store →
      ex' = idsOf s'.store ∧ uniqKeys s'.store ∧
      (∃ d, s'.store = s.store ++ d) ∧
      (∀ p ∈ todo, p.ID ∈ ex') ∧ (∀ x ∈ ex, x ∈ ex') ∧
      ex.length ≤ ex'.length := by
  intro todo
  induction todo with
  | nil =>
    intro s ex w s' ex' w' heq _ hex huniq
    simp only [seedBaseLoop] at heq
    obtain ⟨hs, hrest⟩ := Prod.mk.inj heq
    obtain ⟨hex', hw'⟩ := Prod.mk.inj hrest
    subst hs; subst hex'; subst hw'
    exact ⟨hex, huniq, ⟨[], by simp⟩, by simp, fun x hx => hx, le_refl _⟩
  | cons p rest ih =>
    intro s ex w s' ex' w' heq hids hex huniq
    have hpid : p.ID ≠ "" := hids p (List.mem_cons_self _ _)
    have hrest : ∀ q ∈ rest, q.ID ≠ "" :=
      fun q hq => hids q (List.mem_cons_of_mem _ hq)
    simp only [seedBaseLoop] at heq
    by_cases hmem : p.ID ∈ ex
    · rw [if_pos hmem] at heq
      obtain ⟨h1, h2, h3, h4, h5, h6⟩ := ih s ex w s' ex' w' heq hrest hex huniq
      refine ⟨h1, h2, h3, ?_, h5, h6⟩
      intro q hq
      rcases List.mem_cons.mp hq with rfl | hq'
      · exact h5 _ hmem
      · exact h4 q hq'
    · rw [if_neg hmem] at heq
      set seed := if p.CreatedAt = 0 then { p with CreatedAt := now } else p
        with hseed
      have hseedID : seed.ID = p.ID := by
        by_cases hc : p.CreatedAt = 0 <;> simp [hseed, hc]
      have habs : seed.ID ∉ idsOf s.store := by
        rw [hseedID, ← hex]; exact hmem

      have hseedID' : seed.ID ≠ "" := by rw [hseedID]; exact hpid
      obtain ⟨hst, hids1, huniq1⟩ :=
        @createProductOk_absent se idx now s seed hseedID' habs huniq
      have hex1 : ex ++ [seed.ID]
          = idsOf (createProductOk se idx now s seed).2.store := by
        rw [hids1, ← hex]
      obtain ⟨h1, h2, h3, h4, h5, h6⟩ :=
        ih _ _ _ s' ex' w' heq hrest hex1 huniq1
      refine ⟨h1, h2, ?_, ?_, ?_, ?_⟩
      · obtain ⟨d, hd⟩ := h3
        exact ⟨[(keyFor seed.ID, Val.json (assignDefaults now seed))] ++ d,
          by rw [hd, hst, List.append_assoc]⟩
      · intro q hq
        rcases List.mem_cons.mp hq with rfl | hq'
        · exact h5 q.ID (by rw [← hseedID]; simp)
        · exact h4 q hq'
      · intro x hx
        exact h5 x (List.mem_append_left _ hx)
      · calc ex.length ≤ (ex ++ [seed.ID]).length := by simp
          _ ≤ ex'.length := h6

/-- When every base ID is already in the membership set, the base loop
writes nothing and changes nothing. -/
theorem seedBaseLoop_noop (se idx : Bool) (now : Nat) :
    ∀ (todo : List Product) (s : SysState) (ex w : List String),
      (∀ p ∈ todo, p.ID ∈ ex) →
      seedBaseLoop se idx now todo (s, ex, w) = (s, ex, w) := by
  intro todo
  induction todo with
  | nil => intro s ex w _; simp [seedBaseLoop]
  | cons p rest ih =>
    intro s ex w h
    simp only [seedBaseLoop]
    rw [if_pos (h p (List.mem_cons_self _ _))]
    exact ih s ex w (fun q hq => h q (List.mem_cons_of_mem _ hq))

theorem seedGenLoop_spec (target : Nat) (se idx : Bool) (now : Nat)
    (gen : Nat → Product) (hgen : ∀ i, (gen i).ID ≠ "") :
    ∀ (fuel i : Nat) (s : SysState) (ex w : List String)
      (s' : SysState) (ex' w' : List String),
      seedGenLoop target se idx now gen fuel i (s, ex, w) = some (s', ex', w') →
      ex = idsOf s.store → uniqKeys s.store →
      ex' = idsOf s'.store ∧ uniqKeys s'.store ∧
      (∃ d, s'.store = s.store ++ d) ∧ target ≤ ex'.length := by
  intro fuel
  induction fuel with
  | zero =>
    intro i s ex w s' ex' w' heq _ _
    simp [seedGenLoop] at heq
  | succ fuel ih =>
    intro i s ex w s' ex' w' heq hex huniq
    simp only [seedGenLoop] at heq
    by_cases hlt : ex.length < target
    · rw [if_pos hlt] at heq
      by_cases hmem : (gen i).ID ∈ ex
      · rw [if_pos hmem] at heq
        exact ih (i + 1) s ex w s' ex' w' heq hex huniq
      · rw [if_neg hmem] at heq
        have habs : (gen i).ID ∉ idsOf s.store := by rw [← hex]; exact hmem
        obtain ⟨hst, hids1, huniq1⟩ :=
          @createProductOk_absent se idx now s (gen i) (hgen i) habs huniq
        have hex1 : ex ++ [(gen i).ID]
            = idsOf (createProductOk se idx now s (gen i)).2.store := by
          rw [hids1, ← hex]
        obtain ⟨h1, h2, h3, h4⟩ := ih (i + 1) _ _ _ s' ex' w' heq hex1 huniq1
        refine ⟨h1, h2, ?_, h4⟩
        obtain ⟨d, hd⟩ := h3
        exact ⟨[(keyFor (gen i).ID, Val.json (assignDefaults now (gen i)))] ++ d,
          by rw [hd, hst, List.append_assoc]⟩
    · rw [if_neg hlt] at heq
      obtain ⟨hs, hrest⟩ := Prod.mk.inj (Option.some.inj heq)
      obtain ⟨hex', hw'⟩ := Prod.mk.inj hrest
      subst hs; subst hex'; subst hw'
      exact ⟨hex, huniq, ⟨[], by simp⟩, le_of_not_lt hlt⟩

/-- Once `count` has reached the minimum, the auto loop stops at once. -/
theorem seedAutoLoop_noop (se idx : Bool) (now : Nat) {count : Nat}
    (s : SysState) (ex w : List String) (h : minSeedProducts ≤ count) :
    seedAutoLoop se idx now count s ex w = (s, ex, w) := by
  unfold seedAutoLoop
  rw [Nat.sub_eq_zero_of_le h]
  rfl

theorem seedProducts_ids_ne : ∀ p ∈ seedProducts, p.ID ≠ "" := by decide

theorem seedProducts_ids_nodup : (seedProducts.map Product.ID).Nodup := by decide

/-! ### `seedData` (large variant) -/

/-- Minimum already met: the large variant returns at once, writing
nothing. -/
theorem seedData1_min_met (target : Nat) (se idx : Bool) (now : Nat)
    (gen : Nat → Product) (fuel : Nat) (s : SysState)
    (h : target ≤ (idsOf s.store).length) :
    seedData1 target se idx now gen fuel s = some (s, []) := by
  unfold seedData1
  rw [if_pos h]

/-- A completed large-variant run reaches the target, keeps keys unique,
and only appends to the store. -/
theorem seedData1_complete {target : Nat} {se idx : Bool} {now : Nat}
    {gen : Nat → Product} {fuel : Nat} {s s1 : SysState} {w : List String}
    (huniq : uniqKeys s.store) (hgen : ∀ i, (gen i).ID ≠ "")
    (heq : seedData1 target se idx now gen fuel s = some (s1, w)) :
    uniqKeys s1.store ∧ target ≤ (idsOf s1.store).length ∧
    ∃ d, s1.store = s.store ++ d := by
  unfold seedData1 at heq
  by_cases h0 : (idsOf s.store).length ≥ target
  · rw [if_pos h0] at heq
    obtain ⟨hs, hw⟩ := Prod.mk.inj (Option.some.inj heq)
    subst hs
    exact ⟨huniq, h0, ⟨[], by simp⟩⟩
  · rw [if_neg h0] at heq
    set r1 := seedBaseLoop se idx now seedProducts (s, idsOf s.store, [])
      with hr1
    have hbase : seedBaseLoop se idx now seedProducts (s, idsOf s.store, [])
        = (r1.1, r1.2.1, r1.2.2) := by rw [← hr1]
    obtain ⟨hex1, huniq1, hd1, _, _, _⟩ :=
      seedBaseLoop_spec se idx now seedProducts s (idsOf s.store) []
        r1.1 r1.2.1 r1.2.2 hbase seedProducts_ids_ne rfl huniq
    by_cases h1 : r1.2.1.length ≥ target
    · rw [if_pos h1] at heq
      obtain ⟨hs, hw⟩ := Prod.mk.inj (Option.some.inj heq)
      subst hs
      exact ⟨huniq1, by rw [← hex1]; exact h1, hd1⟩
    · rw [if_neg h1] at heq
      cases hgl : seedGenLoop target se idx now gen fuel 0 r1 with
      | none => rw [hgl] at heq; cases heq
      | some r2 =>
        rw [hgl] at heq
        obtain ⟨s2, ex2, w2⟩ := r2
        obtain ⟨hs, hw⟩ := Prod.mk.inj (Option.some.inj heq)
        subst hs
        obtain ⟨hex2, huniq2, hd2, htarget⟩ :=
          seedGenLoop_spec target se idx now gen hgen fuel 0
            r1.1 r1.2.1 r1.2.2 s2 ex2 w2 hgl hex1 huniq1
        refine ⟨huniq2, by rw [← hex2]; exact htarget, ?_⟩
        obtain ⟨d1, hd1⟩ := hd1
        obtain ⟨d2, hd2⟩ := hd2
        exact ⟨d1 ++ d2, by rw [hd2, hd1, List.append_assoc]⟩

/-- Running the large variant again after a completed run performs no
writes and returns the same state. -/
theorem seedData1_twice {target : Nat} {se idx : Bool} {now : Nat}
    {gen : Nat → Product} {fuel : Nat} {s s1 : SysState} {w : List String}
    (huniq : uniqKeys s.store) (hgen : ∀ i, (gen i).ID ≠ "")
    (heq : seedData1 target se idx now gen fuel s = some (s1, w))
    (se' idx' : Bool) (now' : Nat) (gen' : Nat → Product) (fuel' : Nat) :
    seedData1 target se' idx' now' gen' fuel' s1 = some (s1, []) :=
  seedData1_min_met _ _ _ _ _ _ _
    (seedData1_complete huniq hgen heq).2.1

/-! ### `seedData` (small variant) -/

theorem seedData2_spec {se idx : Bool} {now : Nat} {s : SysState}
    (huniq : uniqKeys s.store) :
    uniqKeys (seedData2 se idx now s).1.store ∧
    (∃ d, (seedData2 se idx now s).1.store = s.store ++ d) ∧
    (∀ p ∈ seedProducts, p.ID ∈ idsOf (seedData2 se idx now s).1.store) ∧
    minSeedProducts ≤ (idsOf (seedData2 se idx now s).1.store).length := by
  simp only [seedData2]
  set r1 := seedBaseLoop se idx now seedProducts (s, idsOf s.store, [])
    with hr1
  have hbase : seedBaseLoop se idx now seedProducts (s, idsOf s.store, [])
      = (r1.1, r1.2.1, r1.2.2) := by rw [← hr1]
  obtain ⟨hex1, huniq1, hd1, hmem1, _, _⟩ :=
    seedBaseLoop_spec se idx now seedProducts s (idsOf s.store) []
      r1.1 r1.2.1 r1.2.2 hbase seedProducts_ids_ne rfl huniq
  have hsub : seedProducts.map Product.ID ⊆ r1.2.1 := by
    intro x hx
    obtain ⟨p, hp, rfl⟩ := List.mem_map.mp hx
    exact hmem1 p hp
  have hlen : minSeedProducts ≤ r1.2.1.length := by
    have := (seedProducts_ids_nodup.subperm hsub).length_le
    simpa using this
  rw [seedAutoLoop_noop se idx now r1.1 r1.2.1 r1.2.2 hlen]
  exact ⟨huniq1, hd1, fun p hp => hex1 ▸ hmem1 p hp, hex1 ▸ hlen⟩

/-- Running the small variant a second time performs no writes and
returns the same state. -/
theorem seedData2_twice {se idx : Bool} {now : Nat} {s : SysState}
    (huniq : uniqKeys s.store) (se' idx' : Bool) (now' : Nat) :
    seedData2 se' idx' now' (seedData2 se idx now s).1
      = ((seedData2 se idx now s).1, []) := by
  obtain ⟨huniq1, _, hmem1, hlen1⟩ := @seedData2_spec se idx now s huniq
  set s1 := (seedData2 se idx now s).1
  show seedData2 se' idx' now' s1 = (s1, [])
  simp only [seedData2]
  rw [seedBaseLoop_noop se' idx' now' seedProducts s1 (idsOf s1.store) []
    hmem1]
  dsimp only
  rw [seedAutoLoop_noop se' idx' now' s1 (idsOf s1.store) [] hlen1]

/-! ### Claim C1 — idempotent seeding -/

/-- C1 (amended): in the large variant, a store whose membership set
already meets the target is returned untouched with no writes, and a
second run after any completed run writes nothing, returns the same
state, and leaves no duplicate IDs; in the small variant, a second run
likewise writes nothing and leaves no duplicate IDs — but a first run may
write absent base sample records even when the minimum is already met
(see the counterexample). -/
theorem seeding_idempotent_amended :
    (∀ (target : Nat) (se idx : Bool) (now : Nat) (gen : Nat → Product)
        (fuel : Nat) (s : SysState),
        target ≤ (idsOf s.store).length →
        seedData1 target se idx now gen fuel s = some (s, [])) ∧
    (∀ (target : Nat) (se idx se' idx' : Bool) (now now' : Nat)
        (gen gen' : Nat → Product) (fuel fuel' : Nat) (s s1 : SysState)
        (w : List String),
        uniqKeys s.store → (∀ i, (gen i).ID ≠ "") →
        seedData1 target se idx now gen fuel s = some (s1, w) →
        seedData1 target se' idx' now' gen' fuel' s1 = some (s1, []) ∧
        (idsOf s1.store).Nodup) ∧
    (∀ (se idx se' idx' : Bool) (now now' : Nat) (s : SysState),
        uniqKeys s.store →
        seedData2 se' idx' now' (seedData2 se idx now s).1
          = ((seedData2 se idx now s).1, []) ∧
        (idsOf (seedData2 se idx now s).1.store).Nodup) := by
  refine ⟨?_, ?_, ?_⟩
  · intro target se idx now gen fuel s h
    exact seedData1_min_met target se idx now gen fuel s h
  · intro target se idx se' idx' now now' gen gen' fuel fuel' s s1 w
      huniq hgen heq
    exact ⟨seedData1_twice huniq hgen heq se' idx' now' gen' fuel',
      idsOf_nodup (seedData1_complete huniq hgen heq).1⟩
  · intro se idx se' idx' now now' s huniq
    exact ⟨seedData2_twice huniq se' idx' now',
      idsOf_nodup (seedData2_spec huniq).1⟩

theorem seeding_idempotent_witness :
    (2 ≤ (idsOf sampleStore5).length ∧
      seedData1 2 false false 7 (fun _ => sampleProduct "g") 3
        ⟨sampleStore5, []⟩ = some (⟨sampleStore5, []⟩, [])) ∧
    (uniqKeys sampleStore5 ∧
      seedData2 true true 8
          (seedData2 false false 7 ⟨sampleStore5, []⟩).1
        = ((seedData2 false false 7 ⟨sampleStore5, []⟩).1, [])) :=
  ⟨⟨by decide,
    seeding_idempotent_amended.1 2 false false 7 (fun _ => sampleProduct "g")
      3 ⟨sampleStore5, []⟩ (by decide)⟩,
   ⟨by decide,
    (seeding_idempotent_amended.2.2 false false true true 7 8
      ⟨sampleStore5, []⟩ (by decide)).1⟩⟩

/-- C1 as stated is false on the small variant: this store already holds
`minSeedProducts` records, yet the Seeding Engine writes the five absent
base sample records and changes the store. -/
theorem seeding_idempotent_counterexample :
    minSeedProducts ≤ (idsOf sampleStore5).length ∧
    (seedData2 false false 7 ⟨sampleStore5, []⟩).2
      = ["seed-1", "seed-2", "seed-3", "seed-4", "seed-5"] ∧
    (seedData2 false false 7 ⟨sampleStore5, []⟩).1.store ≠ sampleStore5 := by
  refine ⟨by decide, by decide, by decide⟩

/-! ### Claim C2 — page/pageSize defaulting -/

theorem clampPage_idem (page : Int) :
    (if (if page < 1 then 1 else page) < 1 then 1
      else (if page < 1 then 1 else page)) = (if page < 1 then 1 else page) := by
  split_ifs <;> omega

theorem clampSize_idem (pageSize : Int) :
    (if (if pageSize ≤ 0 then 10 else pageSize) ≤ 0 then 10
      else (if pageSize ≤ 0 then 10 else pageSize))
    = (if pageSize ≤ 0 then 10 else pageSize) := by
  split_ifs <;> omega

/-- C2 (amended): the defaulting `page < 1 → 1`, `pageSize ≤ 0 → 10`
happens on the scan path only; the indexed path passes the raw
`(page-1)*pageSize` offset and raw `pageSize` limit to the search engine
with no defaulting (at `page = 0, pageSize = 10` it requests offset
`-10`, where defaulting would give offset `0`). -/
theorem listProducts_defaulting_amended :
    (∀ (page pageSize : Int) (category searchQuery : String) (st : Store),
        listProductsScan page pageSize category searchQuery st
          = listProductsScan (if page < 1 then 1 else page)
              (if pageSize ≤ 0 then 10 else pageSize) category searchQuery st) ∧
    indexedPagination 0 10 = (-10, 10) ∧ indexedPagination 1 10 = (0, 10) := by
  refine ⟨?_, by decide, by decide⟩
  intro page pageSize category searchQuery st
  simp only [listProductsScan, paginate, clampPage_idem, clampSize_idem]

/-- C2 as stated is false: on the indexed path a `page` of `0` is not
treated as `1` — the offset handed to the index is `-10`, not `0`. -/
theorem listProducts_defaulting_counterexample :
    indexedPagination 0 10 = (-10, 10) ∧
    indexedPagination 1 10 = (0, 10) ∧ (-10 : Int) ≠ 0 := by
  refine ⟨by decide, by decide, by decide⟩

/-! ### Claim C6 — create/get round trip -/

/-- C6: a product accepted by `CreateProduct` is returned by a subsequent
`GetProduct` on the returned ID, equal to the returned record, assigned
ID and timestamp included. -/
theorem create_get_roundtrip :
    ∀ (se idx : Bool) (now : Nat) (s : SysState) (p p' : Product)
      (s' : SysState),
      createProduct true se idx now s p = .ok (p', s') →
      getProduct true s'.store p'.ID = .ok p' := by
  intro se idx now s p p' s' heq
  simp only [createProduct, if_true] at heq
  have h := Except.ok.inj heq
  have hp' : p' = (createProductOk se idx now s p).1 := by rw [h]
  have hs' : s' = (createProductOk se idx now s p).2 := by rw [h]
  subst hp'; subst hs'
  rw [createProductOk_fst, createProductOk_store]
  simp [getProduct, getKV_setKV_self, decodeVal]

theorem create_get_roundtrip_witness :
    createProduct true false false 5 ⟨[], []⟩ (sampleProduct "z")
        = .ok ((sampleProduct "z"),
            ⟨[(keyFor "z", Val.json (sampleProduct "z"))], []⟩) ∧
    getProduct true [(keyFor "z", Val.json (sampleProduct "z"))] "z"
        = .ok (sampleProduct "z") :=
  ⟨rfl,
    create_get_roundtrip false false 5 ⟨[], []⟩ (sampleProduct "z")
      (sampleProduct "z") ⟨[(keyFor "z", Val.json (sampleProduct "z"))], []⟩
      rfl⟩

/-! ### Claim C8 — index failures never fail the create -/

/-- C8: with a successful store write, `CreateProduct` returns success
for every index-write outcome, and neither the returned record nor the
stored bytes depend on that outcome (the failure is only logged). -/
theorem create_index_best_effort :
    ∀ (se idx : Bool) (now : Nat) (s : SysState) (p : Product),
      createProduct true se idx now s p
        = .ok (createProductOk se idx now s p) ∧
      (createProductOk se idx now s p).1 = (createProductOk se true now s p).1 ∧
      (createProductOk se idx now s p).2.store
        = (createProductOk se true now s p).2.store := by
  intro se idx now s p
  exact ⟨rfl, rfl, rfl⟩

/-! ### Claim C9 — NotFound is a distinct outcome -/

/-- C9: a healthy read of an absent derived key yields the not-found
outcome — never a decode failure, never the general store error — and
that outcome is distinguishable from a store read failure. -/
theorem getProduct_notFound_distinct :
    (∀ (st : Store) (id : String), getKV st (keyFor id) = none →
        getProduct true st id = .error (.notFound id)) ∧
    (∀ (st : Store) (id : String),
        getProduct false st id = .error .storeRead) ∧
    (∀ id : String, RepoErr.notFound id ≠ RepoErr.storeRead) ∧
    (∀ id : String, RepoErr.notFound id ≠ RepoErr.decodeFail) := by
  refine ⟨?_, ?_, ?_, ?_⟩
  · intro st id h
    simp [getProduct, h]
  · intro st id
    simp [getProduct]
  · intro id h
    exact RepoErr.noConfusion h
  · intro id h
    exact RepoErr.noConfusion h

theorem getProduct_notFound_witness :
    getKV ([] : Store) (keyFor "missing-id") = none ∧
    getProduct true [] "missing-id" = .error (.notFound "missing-id") :=
  ⟨rfl, getProduct_notFound_distinct.1 [] "missing-id" rfl⟩

/-! ### Claim C4 — verification routine -/

/-- C4 (amended): the large variant's Verification Routine succeeds only
if the catalog count meets the configured minimum and a by-ID
`GetProduct` retrieval of a sample record succeeds end-to-end; the small
variant's routine performs a single listing call and no by-ID retrieval
at all (see the counterexample). -/
theorem verifySeedData2_trace (st : Store) :
    (verifySeedData2 st).2 = [Ev.listOp] := rfl

theorem verify_routine_amended :
    (∀ (target : Nat) (st : Store),
        (verifySeedData1 target st).1 = .ok () →
        target ≤ countProducts st ∧
        ∃ id, Ev.getByIdOp id ∈ (verifySeedData1 target st).2 ∧
          ∃ p, getProduct true st id = .ok p) ∧
    (∀ (st : Store) (e : Ev), e ∈ (verifySeedData2 st).2 → e = .listOp) := by
  constructor
  · intro target st hok
    unfold verifySeedData1 at hok
    by_cases h1 : countProducts st < target
    · rw [if_pos h1] at hok
      exact absurd hok (by simp)
    · rw [if_neg h1] at hok
      by_cases h2 : sampleProductID st = ""
      · rw [if_pos h2] at hok
        exact absurd hok (by simp)
      · rw [if_neg h2] at hok
        cases hg : getProduct true st (sampleProductID st) with
        | error e =>
          rw [hg] at hok
          exact absurd hok (by simp)
        | ok p =>
          refine ⟨Nat.le_of_not_lt h1, sampleProductID st, ?_, p, hg⟩
          have htrace : (verifySeedData1 target st).2
              = [Ev.scanOp, Ev.scanOp, Ev.getByIdOp (sampleProductID st)] := by
            unfold verifySeedData1
            rw [if_neg h1, if_neg h2, hg]
          rw [htrace]
          simp
  · intro st e he
    rw [verifySeedData2_trace] at he
    simpa using he

theorem verify_routine_witness :
    (verifySeedData1 5 sampleStore5).1 = .ok () ∧
    (5 ≤ countProducts sampleStore5 ∧
      ∃ id, Ev.getByIdOp id ∈ (verifySeedData1 5 sampleStore5).2 ∧
        ∃ p, getProduct true sampleStore5 id = .ok p) :=
  ⟨rfl, verify_routine_amended.1 5 sampleStore5 rfl⟩

/-- C4 as stated is false on the small variant: on this store its
verification routine succeeds, and the only repository operation it
performed is the listing call — no by-ID retrieval happens. -/
theorem verify_routine_counterexample :
    (verifySeedData2 sampleStore5).1 = .ok () ∧
    (verifySeedData2 sampleStore5).2 = [Ev.listOp] :=
  ⟨rfl, rfl⟩

/-! ### Claim C7 — scan-path filter -/

theorem goSlice_subset {l ls : List Product} {a b : Int}
    (h : goSlice l a b = some ls) : ls ⊆ l := by
  unfold goSlice at h
  split_ifs at h
  · have := Option.some.inj h
    rw [← this]
    exact ((List.take_sublist _ _).trans (List.drop_sublist _ _)).subset

theorem paginate_subset {page pageSize : Int} {filtered l : List Product}
    {t : Int} (h : paginate page pageSize filtered = some (l, t)) :
    l ⊆ filtered := by
  simp only [paginate] at h
  by_cases h0 : wrap32 filtered.length = 0
  · rw [if_pos h0] at h
    obtain ⟨hl, _⟩ := Prod.mk.inj (Option.some.inj h)
    rw [← hl]
    exact List.nil_subset _
  · rw [if_neg h0] at h
    by_cases h1 : wrap32 (wrap32 ((if page < 1 then 1 else page) - 1) *
        (if pageSize ≤ 0 then 10 else pageSize)) ≥ (filtered.length : Int)
    · rw [if_pos h1] at h
      obtain ⟨hl, _⟩ := Prod.mk.inj (Option.some.inj h)
      rw [← hl]
      exact List.nil_subset _
    · rw [if_neg h1] at h
      cases hs : goSlice filtered
          (wrap32 (wrap32 ((if page < 1 then 1 else page) - 1) *
            (if pageSize ≤ 0 then 10 else pageSize)))
          (if wrap32 (wrap32 ((if page < 1 then 1 else page) - 1) *
                (if pageSize ≤ 0 then 10 else pageSize)) +
                (if pageSize ≤ 0 then 10 else pageSize) >
                (filtered.length : Int)
            then (filtered.length : Int)
            else wrap32 (wrap32 ((if page < 1 then 1 else page) - 1) *
                (if pageSize ≤ 0 then 10 else pageSize)) +
              (if pageSize ≤ 0 then 10 else pageSize)) with
      | none => rw [hs] at h; cases h
      | some ls =>
        rw [hs] at h
        obtain ⟨hl, _⟩ := Prod.mk.inj (Option.some.inj (by simpa using h))
        rw [← hl]
        exact goSlice_subset hs

theorem listProductsScan_subset {page pageSize : Int}
    {category searchQuery : String} {st : Store} {l : List Product} {t : Int}
    (h : listProductsScan page pageSize category searchQuery st = some (l, t)) :
    l ⊆ scanFilter st category searchQuery :=
  paginate_subset h

/-- C7: on the scan path a key contributes a record to the filtered set
iff the key holds decodable bytes and the record passes the category
exact-match filter and the case-insensitive Name-or-Description substring
filter; consequently a listing with a non-empty category never returns a
record of a different category. -/
theorem scan_filter_iff :
    (∀ (st : Store) (category searchQuery k : String) (p : Product),
        scanInclude st category searchQuery k = some p ↔
          (∃ v, getKV st k = some v ∧ decodeVal v = some p) ∧
          (category ≠ "" → p.Category = category) ∧
          (searchQuery ≠ "" →
            (goContains (goToLower p.Name) (goToLower searchQuery) = true ∨
             goContains (goToLower p.Description) (goToLower searchQuery)
               = true))) ∧
    (∀ (st : Store) (category searchQuery : String) (page pageSize : Int)
        (l : List Product) (t : Int),
        category ≠ "" →
        listProductsScan page pageSize category searchQuery st = some (l, t) →
        ∀ p ∈ l, p.Category = category) := by
  have main : ∀ (st : Store) (category searchQuery k : String) (p : Product),
      scanInclude st category searchQuery k = some p ↔
        (∃ v, getKV st k = some v ∧ decodeVal v = some p) ∧
        (category ≠ "" → p.Category = category) ∧
        (searchQuery ≠ "" →
          (goContains (goToLower p.Name) (goToLower searchQuery) = true ∨
           goContains (goToLower p.Description) (goToLower searchQuery)
             = true)) := by
    intro st category searchQuery k p
    cases hv : getKV st k with
    | none =>
      have heval : scanInclude st category searchQuery k = none := by
        simp only [scanInclude, hv]
      rw [heval]
      simp [hv]
    | some v =>
      cases hd : decodeVal v with
      | none =>
        have heval : scanInclude st category searchQuery k = none := by
          simp only [scanInclude, hv, hd]
        rw [heval]
        constructor
        · intro h
          cases h
        · rintro ⟨⟨v2, hv2, hd2⟩, _, _⟩
          rw [← Option.some.inj hv2] at hd2
          rw [hd] at hd2
          cases hd2
      | some q =>
        have heval : scanInclude st category searchQuery k
            = (if category ≠ "" ∧ q.Category ≠ category then none
               else if searchQuery ≠ "" ∧
                    ¬(goContains (goToLower q.Name) (goToLower searchQuery)
                        = true ∨
                      goContains (goToLower q.Description)
                        (goToLower searchQuery) = true)
                  then none
               else some q) := by
          simp only [scanInclude, hv, hd]
        rw [heval]
        by_cases h1 : category ≠ "" ∧ q.Category ≠ category
        · rw [if_pos h1]
          constructor
          · intro h
            cases h
          · rintro ⟨⟨v2, hv2, hd2⟩, hcat, _⟩
            rw [← Option.some.inj hv2] at hd2
            rw [hd] at hd2
            rw [← Option.some.inj hd2] at hcat
            exact absurd (hcat h1.1) h1.2
        · rw [if_neg h1]
          by_cases h2 : searchQuery ≠ "" ∧
              ¬(goContains (goToLower q.Name) (goToLower searchQuery) = true ∨
                goContains (goToLower q.Description) (goToLower searchQuery)
                  = true)
          · rw [if_pos h2]
            constructor
            · intro h
              cases h
            · rintro ⟨⟨v2, hv2, hd2⟩, _, hsearch⟩
              rw [← Option.some.inj hv2] at hd2
              rw [hd] at hd2
              rw [← Option.some.inj hd2] at hsearch
              exact absurd (hsearch h2.1) h2.2
          · rw [if_neg h2]
            push_neg at h1 h2
            constructor
            · intro h
              have hqp : q = p := Option.some.inj h
              subst hqp
              exact ⟨⟨v, rfl, hd⟩, h1, h2⟩
            · rintro ⟨⟨v2, hv2, hd2⟩, _, _⟩
              rw [← Option.some.inj hv2] at hd2
              rw [hd] at hd2
              exact hd2
  refine ⟨main, ?_⟩
  intro st category searchQuery page pageSize l t hc heq p hp
  have hmem : p ∈ scanFilter st category searchQuery :=
    listProductsScan_subset heq hp
  obtain ⟨k, _, hinc⟩ := List.mem_filterMap.mp hmem
  exact ((main st category searchQuery k p).mp hinc).2.1 hc

theorem scan_filter_witness :
    ("Electronics" : String) ≠ "" ∧
    listProductsScan 1 10 "Electronics" "" sampleStore5
      = some ([sampleProduct "a", sampleProduct "b", sampleProduct "c",
               sampleProduct "d", sampleProduct "e"], 5) ∧
    (sampleProduct "a").Category = "Electronics" :=
  ⟨by decide, by decide,
    scan_filter_iff.2 sampleStore5 "Electronics" "" 1 10
      [sampleProduct "a", sampleProduct "b", sampleProduct "c",
       sampleProduct "d", sampleProduct "e"] 5 (by decide)
      (by decide) (sampleProduct "a") (by decide)⟩

/-! ### Claim C5 — record immutability -/

/-- C5 (amended): reads never write (in this embedding `getProduct` and
`listProductsScan` are functions of the store alone); both seeding
variants only append bindings for absent keys, so every stored binding
survives them unchanged; and `CreateProduct` preserves every binding
except the one under its own assigned ID — which it overwrites in place
when that ID already exists (see the counterexample). -/
theorem record_immutability_amended :
    (∀ (se idx : Bool) (now : Nat) (s : SysState) (p : Product) (k : String),
        k ≠ keyFor (assignDefaults now p).ID →
        getKV (createProductOk se idx now s p).2.store k = getKV s.store k) ∧
    (∀ (se idx : Bool) (now : Nat) (s : SysState) (k : String) (v : Val),
        uniqKeys s.store → getKV s.store k = some v →
        getKV (seedData2 se idx now s).1.store k = some v) ∧
    (∀ (target : Nat) (se idx : Bool) (now : Nat) (gen : Nat → Product)
        (fuel : Nat) (s s1 : SysState) (w : List String),
        uniqKeys s.store → (∀ i, (gen i).ID ≠ "") →
        seedData1 target se idx now gen fuel s = some (s1, w) →
        ∀ (k : String) (v : Val), getKV s.store k = some v →
          getKV s1.store k = some v) := by
  refine ⟨?_, ?_, ?_⟩
  · intro se idx now s p k hk
    rw [createProductOk_store]
    exact getKV_setKV_ne _ _ hk
  · intro se idx now s k v huniq hv
    obtain ⟨_, ⟨d, hd⟩, _, _⟩ := @seedData2_spec se idx now s huniq
    rw [hd]
    exact getKV_append_left d hv
  · intro target se idx now gen fuel s s1 w huniq hgen heq k v hv
    obtain ⟨_, _, d, hd⟩ := seedData1_complete huniq hgen heq
    rw [hd]
    exact getKV_append_left d hv

theorem record_immutability_witness :
    ((keyFor "y" ≠ keyFor (assignDefaults 2 overwriteP).ID) ∧
      getKV (createProductOk false false 2
          ⟨[(keyFor "y", Val.json (sampleProduct "y"))], []⟩ overwriteP).2.store
          (keyFor "y")
        = getKV [(keyFor "y", Val.json (sampleProduct "y"))] (keyFor "y")) ∧
    (uniqKeys sampleStore1 ∧
      getKV (seedData2 false false 7 ⟨sampleStore1, []⟩).1.store (keyFor "a")
        = some (Val.json (sampleProduct "a"))) :=
  ⟨⟨by decide,
    record_immutability_amended.1 false false 2
      ⟨[(keyFor "y", Val.json (sampleProduct "y"))], []⟩ overwriteP
      (keyFor "y") (by decide)⟩,
   ⟨by decide,
    record_immutability_amended.2.1 false false 7 ⟨sampleStore1, []⟩
      (keyFor "a") (Val.json (sampleProduct "a")) (by decide) (by decide)⟩⟩

/-- C5 as stated is false: a second `CreateProduct` under an already-used
ID replaces the bytes stored under that record's key. -/
theorem record_immutability_counterexample :
    getKV sampleStore1 (keyFor "a") = some (Val.json (sampleProduct "a")) ∧
    getKV (createProductOk false false 2 ⟨sampleStore1, []⟩
        { overwriteP with ID := "a" }).2.store (keyFor "a")
      = some (Val.json { overwriteP with ID := "a" }) ∧
    Val.json { overwriteP with ID := "a" }
      ≠ Val.json (sampleProduct "a") := by
  refine ⟨by decide, by decide, by decide⟩


/-! ### `int32` arithmetic lemmas -/

theorem wrap32_eq_self {x : Int} (h1 : -(2 ^ 31) ≤ x) (h2 : x < 2 ^ 31) :
    wrap32 x = x := by
  unfold wrap32
  rw [Int.emod_eq_of_lt (by omega) (by omega)]
  omega

/-! ### Ceiling division for page counts -/

theorem lt_ceilPages_iff {N P : Nat} (hP : 0 < P) (i : Nat) :
    i < ceilPages N P ↔ i * P < N := by
  unfold ceilPages
  rcases Nat.eq_zero_or_pos N with h0 | hpos
  · subst h0
    have hz : (0 + P - 1) / P = 0 := Nat.div_eq_of_lt (by omega)
    rw [hz]
    omega
  · rw [show i < (N + P - 1) / P ↔ i + 1 ≤ (N + P - 1) / P from Iff.rfl,
      Nat.le_div_iff_mul_le hP]
    have hip : (i + 1) * P = i * P + P := by ring
    omega

theorem le_ceilPages_mul {N P : Nat} (hP : 0 < P) : N ≤ ceilPages N P * P :=
  Nat.le_of_not_lt (mt ((lt_ceilPages_iff hP (ceilPages N P)).mpr)
    (lt_irrefl (ceilPages N P)))

theorem ceilPages_pos {N P : Nat} (hP : 0 < P) (hN : 0 < N) :
    0 < ceilPages N P := by
  rw [lt_ceilPages_iff hP 0]
  omega

theorem ceilPages_last {N P : Nat} (hP : 0 < P) (hN : 0 < N) :
    N - (ceilPages N P - 1) * P = if N % P = 0 then P else N % P := by
  have hc1 : 0 < ceilPages N P := ceilPages_pos hP hN
  have hlt : (ceilPages N P - 1) * P < N :=
    (lt_ceilPages_iff hP (ceilPages N P - 1)).mp (by omega)
  have hle : N ≤ (ceilPages N P - 1) * P + P := by
    have h2 := @le_ceilPages_mul N P hP
    have h3 : ceilPages N P * P = (ceilPages N P - 1) * P + P := by
      have h4 : ceilPages N P = (ceilPages N P - 1) + 1 := by omega
      calc ceilPages N P * P = ((ceilPages N P - 1) + 1) * P := by rw [← h4]
        _ = (ceilPages N P - 1) * P + P := by ring
    omega
  have hD : N = (N - (ceilPages N P - 1) * P) + (ceilPages N P - 1) * P := by
    omega
  have hmod : N % P = (N - (ceilPages N P - 1) * P) % P := by
    conv_lhs => rw [hD]
    rw [Nat.add_mul_mod_self_right]
  by_cases hDP : N - (ceilPages N P - 1) * P = P
  · rw [hDP] at hmod ⊢
    rw [hmod, Nat.mod_self, if_pos rfl]
  · have hDlt : N - (ceilPages N P - 1) * P < P := by omega
    rw [Nat.mod_eq_of_lt hDlt] at hmod
    rw [if_neg (by omega)]
    exact hmod.symm

/-! ### Chunks of size `P` partition a list -/

theorem chunksJoin (P : Nat) (hP : 0 < P) :
    ∀ (n : Nat) (l : List Product), l.length = n →
      ((List.range (ceilPages l.length P)).map
          (fun i => (l.drop (i * P)).take P)).flatten = l := by
  intro n
  induction n using Nat.strong_induction_on with
  | _ n ih =>
    intro l hl
    rcases Nat.eq_zero_or_pos l.length with h0 | hpos
    · have hnil : l = [] := List.eq_nil_of_length_eq_zero h0
      subst hnil
      have hz : (0 + P - 1) / P = 0 := Nat.div_eq_of_lt (by omega)
      simp [ceilPages, hz]
    · have hsucc : ceilPages l.length P = ceilPages (l.drop P).length P + 1 := by
        rw [List.length_drop]
        unfold ceilPages
        rcases Nat.lt_or_ge l.length P with hlt | hge
        · have h1 : (l.length + P - 1) / P = 1 :=
            Nat.div_eq_of_lt_le (by omega) (by omega)
          have h2 : l.length - P = 0 := by omega
          have h3 : (0 + P - 1) / P = 0 := Nat.div_eq_of_lt (by omega)
          rw [h1, h2, h3]
        · have h4 : l.length + P - 1 = (l.length - P + P - 1) + P := by omega
          rw [h4, Nat.add_div_right _ hP]
      rw [hsucc, List.range_succ_eq_map]
      simp only [List.map_cons, List.map_map, List.flatten_cons,
        Nat.zero_mul, List.drop_zero]
      have hcomp : (List.range (ceilPages (l.drop P).length P)).map
          ((fun i => (l.drop (i * P)).take P) ∘ Nat.succ)
          = (List.range (ceilPages (l.drop P).length P)).map
              (fun i => (((l.drop P).drop (i * P)).take P)) := by
        apply List.map_congr_left
        intro i _
        show (l.drop (Nat.succ i * P)).take P = ((l.drop P).drop (i * P)).take P
        rw [List.drop_drop, Nat.succ_mul, Nat.add_comm P (i * P)]
      rw [hcomp, ih (l.drop P).length (by rw [List.length_drop]; omega)
        (l.drop P) rfl]
      exact List.take_append_drop P l

/-! ### Evaluating the pagination tail -/

theorem goSlice_eq_some {l ls : List Product} {a b : Int}
    (h : goSlice l a b = some ls) :
    0 ≤ a ∧ a ≤ b ∧ b ≤ (l.length : Int) ∧
    ls = (l.drop a.toNat).take (b - a).toNat := by
  unfold goSlice at h
  split_ifs at h with hc
  exact ⟨hc.1, hc.2.1, hc.2.2, (Option.some.inj h).symm⟩

theorem paginate_empty (page pageSize : Int) :
    paginate page pageSize [] = some ([], 0) := by
  unfold paginate
  norm_num [wrap32]

/-- Evaluation of `paginate` at an in-range page (no clamping applies,
the `int32` arithmetic cannot overflow). -/
theorem paginate_in_range {filtered : List Product} {page P : Int}
    (hNlt : (filtered.length : Int) < 2 ^ 31) (hpage : 1 ≤ page)
    (hP : 0 < P) (hstart : (page - 1) * P < (filtered.length : Int)) :
    paginate page P filtered
      = some ((filtered.drop ((page - 1) * P).toNat).take P.toNat,
          (filtered.length : Int)) := by
  have hs0 : 0 ≤ (page - 1) * P := mul_nonneg (by omega) (by omega)
  have hpm : page - 1 ≤ (page - 1) * P := by
    calc page - 1 = (page - 1) * 1 := by ring
      _ ≤ (page - 1) * P := by
          apply mul_le_mul_of_nonneg_left (by omega) (by omega)
  have hN0 : 0 < filtered.length := by
    by_contra h
    have : filtered.length = 0 := by omega
    rw [this] at hstart
    simp at hstart
    omega
  have hw1 : wrap32 (page - 1) = page - 1 := wrap32_eq_self (by omega) (by omega)
  have hw2 : wrap32 ((page - 1) * P) = (page - 1) * P :=
    wrap32_eq_self (by omega) (by omega)
  have hwN : wrap32 filtered.length = (filtered.length : Int) :=
    wrap32_eq_self (by omega) (by omega)
  simp only [paginate]
  rw [hwN, if_neg (by omega), if_neg (by omega : ¬page < 1),
    if_neg (by omega : ¬P ≤ 0), hw1, hw2, if_neg (by omega)]
  by_cases hstop : (page - 1) * P + P > (filtered.length : Int)
  · rw [if_pos hstop]
    unfold goSlice
    rw [if_pos ⟨hs0, by omega, by omega⟩]
    simp only [Option.map_some']
    have hlen : ((filtered.length : Int) - (page - 1) * P).toNat
        = filtered.length - ((page - 1) * P).toNat := by omega
    have htake : (filtered.drop ((page - 1) * P).toNat).take
          (filtered.length - ((page - 1) * P).toNat)
        = (filtered.drop ((page - 1) * P).toNat).take P.toNat := by
      have hlendrop : (filtered.drop ((page - 1) * P).toNat).length
          = filtered.length - ((page - 1) * P).toNat := List.length_drop _ _
      rw [List.take_of_length_le (by omega),
        List.take_of_length_le (by rw [hlendrop]; omega)]
    rw [hlen, htake]
  · rw [if_neg hstop]
    unfold goSlice
    rw [if_pos ⟨hs0, by omega, by omega⟩]
    simp only [Option.map_some']
    have hlen : ((page - 1) * P + P - (page - 1) * P).toNat = P.toNat := by
      omega
    rw [hlen]

/-- Evaluation of `paginate` at a beyond-range page (no clamping, no
`int32` overflow): the empty page with the true total. -/
theorem paginate_beyond {filtered : List Product} {page P : Int}
    (hN : 0 < filtered.length) (hNlt : (filtered.length : Int) < 2 ^ 31)
    (hpage : 1 ≤ page) (hP : 0 < P)
    (hstart_ge : (filtered.length : Int) ≤ (page - 1) * P)
    (hov : (page - 1) * P < 2 ^ 31) :
    paginate page P filtered = some ([], (filtered.length : Int)) := by
  have hs0 : 0 ≤ (page - 1) * P := mul_nonneg (by omega) (by omega)
  have hpm : page - 1 ≤ (page - 1) * P := by
    calc page - 1 = (page - 1) * 1 := by ring
      _ ≤ (page - 1) * P := by
          apply mul_le_mul_of_nonneg_left (by omega) (by omega)
  have hw1 : wrap32 (page - 1) = page - 1 := wrap32_eq_self (by omega) (by omega)
  have hw2 : wrap32 ((page - 1) * P) = (page - 1) * P :=
    wrap32_eq_self (by omega) (by omega)
  have hwN : wrap32 filtered.length = (filtered.length : Int) :=
    wrap32_eq_self (by omega) (by omega)
  simp only [paginate]
  rw [hwN, if_neg (by omega), if_neg (by omega : ¬page < 1),
    if_neg (by omega : ¬P ≤ 0), hw1, hw2, if_pos (by omega)]

/-! ### Claim C3 — pagination correctness on the scan path -/

/-- C3 (amended): for a filtered set of size `N > 0` and page size
`p ≥ 1` (both below `2^31`, so the `int32` arithmetic of the source does
not overflow), the `ceil(N/p)` pages partition the filtered set in order,
each element exactly once; every in-range page reports total `N`; the
last page holds `N mod p` records (or `p` when `N mod p = 0`); and any
page number beyond the last whose `int32` offset `(page-1)*p` does not
overflow yields the empty page with the correct non-zero total.  (The
overflow proviso is forced by the source: see the counterexample, where
an overflowed offset wraps to `0` and a beyond-range page returns data.) -/
theorem scan_pagination_amended :
    ∀ (st : Store) (category searchQuery : String) (p N : Nat)
      (filtered : List Product),
      filtered = scanFilter st category searchQuery →
      N = filtered.length →
      0 < p → (p : Int) < 2 ^ 31 → 0 < N → (N : Int) < 2 ^ 31 →
      (∀ i : Nat, i < ceilPages N p →
        listProductsScan ((i : Int) + 1) (p : Int) category searchQuery st
          = some ((filtered.drop (i * p)).take p, (N : Int))) ∧
      ((List.range (ceilPages N p)).map
          (fun i => (filtered.drop (i * p)).take p)).flatten = filtered ∧
      ((filtered.drop ((ceilPages N p - 1) * p)).take p).length
        = (if N % p = 0 then p else N % p) ∧
      (∀ page : Int, (ceilPages N p : Int) < page →
        (page - 1) * (p : Int) < 2 ^ 31 →
        listProductsScan page (p : Int) category searchQuery st
          = some ([], (N : Int))) := by
  intro st category searchQuery p N filtered hfil hN hp hplt hN0 hNlt
  subst hfil
  subst hN
  have hp' : (0 : Int) < (p : Int) := by exact_mod_cast hp
  refine ⟨?_, ?_, ?_, ?_⟩
  · intro i hi
    have hioff : (((i : Int) + 1 - 1) * (p : Int)) = ((i * p : Nat) : Int) := by
      push_cast
      ring
    have hstart : ((i : Int) + 1 - 1) * (p : Int)
        < ((scanFilter st category searchQuery).length : Int) := by
      rw [hioff]
      exact_mod_cast (lt_ceilPages_iff hp i).mp hi
    unfold listProductsScan
    rw [paginate_in_range hNlt (by omega) hp' hstart, hioff,
      Int.toNat_natCast, Int.toNat_natCast]
  · exact chunksJoin p hp (scanFilter st category searchQuery).length
      (scanFilter st category searchQuery) rfl
  · have hc1 : 0 < ceilPages (scanFilter st category searchQuery).length p :=
      ceilPages_pos hp hN0
    have hlt : (ceilPages (scanFilter st category searchQuery).length p - 1)
        * p < (scanFilter st category searchQuery).length :=
      (lt_ceilPages_iff hp _).mp (by omega)
    have hle : (scanFilter st category searchQuery).length
        ≤ (ceilPages (scanFilter st category searchQuery).length p - 1) * p
          + p := by
      have h2 := @le_ceilPages_mul (scanFilter st category searchQuery).length
        p hp
      have h3 : ceilPages (scanFilter st category searchQuery).length p * p
          = (ceilPages (scanFilter st category searchQuery).length p - 1) * p
            + p := by
        have h4 : ceilPages (scanFilter st category searchQuery).length p
            = (ceilPages (scanFilter st category searchQuery).length p - 1)
              + 1 := by omega
        calc ceilPages (scanFilter st category searchQuery).length p * p
            = ((ceilPages (scanFilter st category searchQuery).length p - 1)
                + 1) * p := by rw [← h4]
          _ = _ := by ring
      omega
    rw [List.length_take, List.length_drop,
      min_eq_right (by omega), ceilPages_last hp hN0]
  · intro page hpage hov
    have hcpos : 0 < ceilPages (scanFilter st category searchQuery).length p :=
      ceilPages_pos hp hN0
    have h1 : 1 ≤ page := by
      have : (1 : Int) ≤ (ceilPages (scanFilter st category searchQuery).length
          p : Int) := by exact_mod_cast hcpos
      omega
    have hcle : ((scanFilter st category searchQuery).length : Int)
        ≤ (ceilPages (scanFilter st category searchQuery).length p : Int)
          * (p : Int) := by
      exact_mod_cast @le_ceilPages_mul
        (scanFilter st category searchQuery).length p hp
    have hge : ((scanFilter st category searchQuery).length : Int)
        ≤ (page - 1) * (p : Int) := by
      calc ((scanFilter st category searchQuery).length : Int)
          ≤ (ceilPages (scanFilter st category searchQuery).length p : Int)
            * (p : Int) := hcle
        _ ≤ (page - 1) * (p : Int) := by
            apply mul_le_mul_of_nonneg_right (by omega) (by omega)
    unfold listProductsScan
    exact paginate_beyond hN0 hNlt h1 hp' hge hov


theorem scan_pagination_witness :
    listProductsScan ((2 : Nat) : Int) ((2 : Nat) : Int) "" "" sampleStore5
      = some (((scanFilter sampleStore5 "" "").drop (1 * 2)).take 2,
          ((scanFilter sampleStore5 "" "").length : Int)) ∧
    listProductsScan 9 ((2 : Nat) : Int) "" "" sampleStore5
      = some ([], ((scanFilter sampleStore5 "" "").length : Int)) := by
  have h := scan_pagination_amended sampleStore5 "" "" 2
    (scanFilter sampleStore5 "" "").length (scanFilter sampleStore5 "" "")
    rfl rfl (by decide) (by decide) (by decide) (by decide)
  constructor
  · have h1 := h.1 1 (by decide)
    exact_mod_cast h1
  · exact h.2.2.2 9 (by decide) (by decide)

/-- C3 as stated is false: with one matching record and `pageSize 65536`,
page `65537` lies far beyond the last page, yet the `int32` offset
`65536 * 65536` wraps to `0` and the call returns the full first page
instead of an empty sequence. -/
theorem scan_pagination_counterexample :
    ceilPages (scanFilter sampleStore1 "" "").length 65536 = 1 ∧
    (1 : Int) < 65537 ∧
    listProductsScan 65537 65536 "" "" sampleStore1
      = some ([sampleProduct "a"], 1) := by
  refine ⟨by decide, by decide, by decide⟩

/-! ### Claim C10 — page shape on the scan path -/

/-- Every successful return of the pagination tail is a contiguous slice
of the filtered sequence, of length at most the defaulted page size. -/
theorem paginate_shape {page pageSize : Int} {filtered l : List Product}
    {t : Int} (h : paginate page pageSize filtered = some (l, t)) :
    ∃ a : Nat,
      l = (filtered.drop a).take (if pageSize ≤ 0 then 10 else pageSize).toNat
      ∧ l.length ≤ (if pageSize ≤ 0 then 10 else pageSize).toNat := by
  simp only [paginate] at h
  set psD := if pageSize ≤ 0 then 10 else pageSize with hpsD
  have hpsD0 : 0 < psD := by rw [hpsD]; split_ifs <;> omega
  by_cases h0 : wrap32 filtered.length = 0
  · rw [if_pos h0] at h
    obtain ⟨hl, _⟩ := Prod.mk.inj (Option.some.inj h)
    refine ⟨filtered.length, ?_, ?_⟩
    · rw [← hl, List.drop_length, List.take_nil]
    · rw [← hl]
      simp
  · rw [if_neg h0] at h
    set start := wrap32 (wrap32 ((if page < 1 then 1 else page) - 1) * psD)
      with hstart
    by_cases h1 : start ≥ (filtered.length : Int)
    · rw [if_pos h1] at h
      obtain ⟨hl, _⟩ := Prod.mk.inj (Option.some.inj h)
      refine ⟨filtered.length, ?_, ?_⟩
      · rw [← hl, List.drop_length, List.take_nil]
      · rw [← hl]
        simp
    · rw [if_neg h1] at h
      set stop := if start + psD > (filtered.length : Int)
          then (filtered.length : Int) else start + psD with hstop
      have hstople : stop ≤ start + psD := by
        rw [hstop]; split_ifs <;> omega
      cases hgs : goSlice filtered start stop with
      | none =>
        rw [hgs] at h
        simp at h
      | some ls =>
        rw [hgs] at h
        simp only [Option.map_some'] at h
        obtain ⟨hl, _⟩ := Prod.mk.inj (Option.some.inj h)
        obtain ⟨ha0, hab, hble, hls⟩ := goSlice_eq_some hgs
        refine ⟨start.toNat, ?_, ?_⟩
        · rw [← hl, hls]
          by_cases hc : start + psD > (filtered.length : Int)
          · have hlendrop : (filtered.drop start.toNat).length
                = filtered.length - start.toNat := List.length_drop _ _
            have hstopN : stop = (filtered.length : Int) := by
              rw [hstop, if_pos hc]
            rw [hstopN]
            rw [List.take_of_length_le (by omega),
              List.take_of_length_le (by rw [hlendrop]; omega)]
          · have hstopN : stop = start + psD := by
              rw [hstop, if_neg hc]
            have harg : (start + psD - start).toNat = psD.toNat := by omega
            rw [hstopN, harg]
        · rw [← hl, hls, List.length_take, List.length_drop]
          have : (stop - start).toNat ≤ psD.toNat := by omega
          omega

/-- C10 (amended): when no record passes the filter, the scan path
returns the empty sequence with total `0` and no error, for every `page`
and `pageSize`; and whenever the call returns at all, the returned page
is a contiguous slice of the filtered sequence of length at most the
defaulted `pageSize`.  (The proviso "returns at all" is forced by the
source: an `int32`-overflowed negative start index makes the Go slice
expression panic — see the counterexample.) -/
theorem scan_page_shape_amended :
    (∀ (st : Store) (category searchQuery : String) (page pageSize : Int),
        scanFilter st category searchQuery = [] →
        listProductsScan page pageSize category searchQuery st
          = some ([], 0)) ∧
    (∀ (st : Store) (category searchQuery : String) (page pageSize : Int)
        (l : List Product) (t : Int),
        listProductsScan page pageSize category searchQuery st = some (l, t) →
        ∃ a : Nat,
          l = ((scanFilter st category searchQuery).drop a).take
              (if pageSize ≤ 0 then 10 else pageSize).toNat ∧
          l.length ≤ (if pageSize ≤ 0 then 10 else pageSize).toNat) := by
  constructor
  · intro st category searchQuery page pageSize hempty
    unfold listProductsScan
    rw [hempty]
    exact paginate_empty page pageSize
  · intro st category searchQuery page pageSize l t heq
    exact paginate_shape heq

theorem scan_page_shape_witness :
    (scanFilter sampleStore5 "Missing" "" = [] ∧
      listProductsScan 7 0 "Missing" "" sampleStore5 = some ([], 0)) ∧
    (listProductsScan 1 10 "" "" sampleStore1
        = some ([sampleProduct "a"], 1) ∧
      ∃ a : Nat,
        [sampleProduct "a"] = ((scanFilter sampleStore1 "" "").drop a).take
            ((if (10 : Int) ≤ 0 then 10 else 10 : Int)).toNat ∧
        ([sampleProduct "a"] : List Product).length
          ≤ ((if (10 : Int) ≤ 0 then 10 else 10 : Int)).toNat) :=
  ⟨⟨by decide,
    scan_page_shape_amended.1 sampleStore5 "Missing" "" 7 0 (by decide)⟩,
   ⟨by decide,
    scan_page_shape_amended.2 sampleStore1 "" "" 1 10 [sampleProduct "a"] 1
      (by decide)⟩⟩

/-- C10 as stated is false on the panic path: here a record passes the
filter, but with `page 65537` and `pageSize 32768` the `int32` start
index wraps to `-2^31`, the Go slice expression panics, and no page is
returned at all. -/
theorem scan_page_shape_counterexample :
    scanFilter sampleStore1 "" "" ≠ [] ∧
    listProductsScan 65537 32768 "" "" sampleStore1 = none := by
  refine ⟨by decide, by decide⟩


end Chirik
